import Mathlib

/-!
Verification development for the communes-francaises repository (main.go).

The program fetches the list of French communes from a geographic registry,
enriches each commune concurrently (department/region name resolution via two
reference tables, postal codes, centroid coordinates swapped from (lon, lat)
to (lat, lon)), collects successes and failures over two channels, sorts the
accumulated records with sort.SliceStable under a comparator on the numeric
value of the first postal code, and serializes the result to JSON.

This file is a shallow embedding of that program: every definition is
translated from main.go (and, for the sort, from the Go standard library
stable-sort algorithm that sort.SliceStable runs, since the comparator in
main.go violates the documented precondition of sort.SliceStable and the
actual behaviour is therefore fixed only by that concrete algorithm).
Coordinates are modelled as rationals: the program never computes with them,
it only rearranges them, so the embedding is representation-faithful.
-/

namespace CommunesFR

/-- Location mirrors the Location struct of main.go (lines 27-30): a GeoJSON
kind tag and a coordinate list.  The Go zero value is type = "" and a nil
coordinate slice, modelled as the empty list. -/
structure Location where
  type : String
  coordinates : List ℚ
deriving DecidableEq, Repr

/-- Commune mirrors the Commune struct of main.go (lines 19-25).  Go string
fields default to ""; the json tags departement and region carry omitempty,
nom, codesPostaux and location do not. -/
structure Commune where
  nom : String
  departement : String
  region : String
  codesPostaux : List String
  location : Location
deriving DecidableEq, Repr

/-- Departement mirrors the Departement struct of main.go (lines 32-35). -/
structure Departement where
  nom : String
  code : String
deriving DecidableEq, Repr

/-- Region mirrors the Region struct of main.go (lines 37-40). -/
structure Region where
  nom : String
  code : String
deriving DecidableEq, Repr

/-- CommuneProperties mirrors the anonymous Properties struct inside
CommuneResponse (main.go lines 48-55). -/
structure CommuneProperties where
  nom : String
  code : String
  codesPostaux : List String
  codeDepartement : String
  codeRegion : String
  population : Int
deriving DecidableEq, Repr

/-- CommuneGeometry mirrors the anonymous Geometry struct inside
CommuneResponse (main.go lines 56-59). -/
structure CommuneGeometry where
  type : String
  coordinates : List ℚ
deriving DecidableEq, Repr

/-- CommuneResponse mirrors the CommuneResponse struct of main.go
(lines 46-60). -/
structure CommuneResponse where
  type : String
  properties : CommuneProperties
  geometry : CommuneGeometry
deriving DecidableEq, Repr

/-! ### Go string and integer-parsing primitives used by the comparator

main.go line 220 computes strconv.ParseInt(strings.TrimLeft(code, "0"), 10, 64).
-/

/-- goTrimLeftZeros models strings.TrimLeft(s, "0"): it removes the maximal
leading run of '0' characters. -/
def goTrimLeftZeros (s : String) : List Char :=
  s.toList.dropWhile (fun c => c = '0')

/-- goIsDigit recognises the ASCII decimal digits, the only digits accepted by
strconv.ParseInt in base 10. -/
def goIsDigit (c : Char) : Bool :=
  decide ('0' ≤ c) && decide (c ≤ '9')

/-- goDigitsToNat folds a list of ASCII digits into the natural number they
denote in base 10. -/
def goDigitsToNat (cs : List Char) : Nat :=
  cs.foldl (fun acc c => 10 * acc + (c.toNat - ('0').toNat)) 0

/-- goParseInt64 models strconv.ParseInt(s, 10, 64): an optional single sign
followed by at least one ASCII digit, failing on the empty string, on any
non-digit character and on values outside the signed 64-bit range. -/
def goParseInt64 (cs : List Char) : Option Int :=
  match cs with
  | [] => none
  | c :: rest =>
    let neg : Bool := c = '-'
    let digits : List Char := if c = '-' || c = '+' then rest else cs
    if digits.isEmpty then none
    else if digits.all goIsDigit then
      let v : Int := if neg then -(goDigitsToNat digits : Int) else (goDigitsToNat digits : Int)
      if -(2 ^ 63) ≤ v ∧ v ≤ 2 ^ 63 - 1 then some v else none
    else none

/-- postalValue is the numeric value the comparator of readCities extracts
from one postal code: strip leading zeros, then parse as a base-10 signed
64-bit integer; none models a parse error. -/
def postalValue (code : String) : Option Int :=
  goParseInt64 (goTrimLeftZeros code)

/-- communeLess is the comparator closure passed to sort.SliceStable in
readCities (main.go lines 216-229): it returns true when either record has an
empty postal-code list, true when the parse of the first (i-side, then j-side)
postal code fails, and otherwise compares the two parsed values strictly. -/
def communeLess (ci cj : Commune) : Bool :=
  if ci.codesPostaux.length = 0 || cj.codesPostaux.length = 0 then true
  else
    match postalValue (ci.codesPostaux.headD "") with
    | none => true
    | some o =>
      match postalValue (cj.codesPostaux.headD "") with
      | none => true
      | some k => decide (o < k)

/-! ### The Go standard-library stable sort

readCities calls sort.SliceStable (main.go line 216).  The comparator above is
not a valid less function (it answers true on both sides of a malformed pair),
which violates the documented precondition of sort.SliceStable; the behaviour
of the program is therefore fixed only by the concrete algorithm the library
runs: insertion sort on blocks of 20 followed by symMerge rounds.  The
functions below translate that algorithm (sort.go: insertionSort, symMerge,
rotate, swapRange, stable) to lists with explicit index swaps.  Loops are
given a fuel argument equal to (an upper bound of) their iteration count so
that recursion is structural and concrete inputs reduce in the kernel; every
fuel value supplied below is sufficient for the loop to run to completion. -/

/-- lswap models data.Swap(i, j): exchange the elements at positions i and j.
Out-of-range indices leave the list unchanged (the algorithm below only ever
swaps in range). -/
def lswap (l : List α) (i j : Nat) : List α :=
  match l.get? i, l.get? j with
  | some x, some y => (l.set i y).set j x
  | _, _ => l

/-- ltAt models data.Less(i, j): compare the elements at positions i and j.
Out-of-range indices answer false (the algorithm below only ever compares in
range). -/
def ltAt (lt : α → α → Bool) (l : List α) (i j : Nat) : Bool :=
  match l.get? i, l.get? j with
  | some x, some y => lt x y
  | _, _ => false

/-- insertionSortInner models the inner loop of the Go insertionSort:
for j := i; j > a and data.Less(j, j-1); j-- [ data.Swap(j, j-1) ]. -/
def insertionSortInner (lt : α → α → Bool) (a : Nat) : List α → Nat → List α
  | l, 0 => l
  | l, j + 1 =>
    if a < j + 1 && ltAt lt l (j + 1) j then
      insertionSortInner lt a (lswap l (j + 1) j) j
    else l

/-- insertionSortOuter models the outer loop of the Go insertionSort with
fuel = b - i iterations remaining: for i := a+1; i < b; i++. -/
def insertionSortOuter (lt : α → α → Bool) (a : Nat) : Nat → List α → Nat → List α
  | 0, l, _ => l
  | fuel + 1, l, i => insertionSortOuter lt a fuel (insertionSortInner lt a l i) (i + 1)

/-- insertionSortGo models the Go insertionSort(data, a, b): insertion sort of
the index range [a, b). -/
def insertionSortGo (lt : α → α → Bool) (l : List α) (a b : Nat) : List α :=
  insertionSortOuter lt a (b - (a + 1)) l (a + 1)

/-- swapRange models the Go swapRange(data, a, b, n): swap the n-element
ranges starting at a and at b. -/
def swapRange : List α → Nat → Nat → Nat → List α
  | l, _, _, 0 => l
  | l, a, b, n + 1 => swapRange (lswap l a b) (a + 1) (b + 1) n

/-- rotateLoop models the subtractive-gcd loop of the Go rotate; fuel bounds
the number of iterations (i + j suffices for the reachable calls, which all
have both i and j positive). -/
def rotateLoop : Nat → List α → Nat → Nat → Nat → List α
  | 0, l, _, _, _ => l
  | fuel + 1, l, m, i, j =>
    if i = j then swapRange l (m - i) m i
    else if j < i then rotateLoop fuel (swapRange l (m - i) m j) m (i - j) j
    else rotateLoop fuel (swapRange l (m - i) (m + j - i) i) m i (j - i)

/-- rotate models the Go rotate(data, a, m, b): rotate the range [a, b) so
that the block [m, b) comes before the block [a, m). -/
def rotate (l : List α) (a m b : Nat) : List α :=
  rotateLoop (b - a + 1) l m (m - a) (b - m)

/-- symSearchLow models the first binary search of symMerge (base case
m-a == 1): lowest index i in [m, b] such that data[i] is not less than
data[a]; fuel = b - m. -/
def symSearchLow (lt : α → α → Bool) (l : List α) (a : Nat) : Nat → Nat → Nat → Nat
  | 0, i, _ => i
  | fuel + 1, i, j =>
    if i < j then
      let h := (i + j) / 2
      if ltAt lt l h a then symSearchLow lt l a fuel (h + 1) j
      else symSearchLow lt l a fuel i h
    else i

/-- symSearchHigh models the second binary search of symMerge (base case
b-m == 1): lowest index i in [a, m] such that data[m] is less than data[i];
fuel = m - a. -/
def symSearchHigh (lt : α → α → Bool) (l : List α) (m : Nat) : Nat → Nat → Nat → Nat
  | 0, i, _ => i
  | fuel + 1, i, j =>
    if i < j then
      let h := (i + j) / 2
      if !(ltAt lt l m h) then symSearchHigh lt l m fuel (h + 1) j
      else symSearchHigh lt l m fuel i h
    else i

/-- symSearchMid models the central binary search of symMerge over the mirror
pair (p-c, c); fuel = r - start. -/
def symSearchMid (lt : α → α → Bool) (l : List α) (p : Nat) : Nat → Nat → Nat → Nat
  | 0, s, _ => s
  | fuel + 1, s, r =>
    if s < r then
      let c := (s + r) / 2
      if !(ltAt lt l (p - c) c) then symSearchMid lt l p fuel (c + 1) r
      else symSearchMid lt l p fuel s c
    else s

/-- bubbleUp models the shift loop for k := a; k < i-1; k++ [ swap(k, k+1) ];
fuel is the iteration count. -/
def bubbleUp : List α → Nat → Nat → List α
  | l, _, 0 => l
  | l, k, fuel + 1 => bubbleUp (lswap l k (k + 1)) (k + 1) fuel

/-- bubbleDown models the shift loop for k := m; k > i; k-- [ swap(k, k-1) ];
fuel is the iteration count. -/
def bubbleDown : List α → Nat → Nat → List α
  | l, _, 0 => l
  | l, k, fuel + 1 => bubbleDown (lswap l k (k - 1)) (k - 1) fuel

/-- symMerge models the Go symMerge(data, a, m, b), merging the two adjacent
runs [a, m) and [m, b); the fuel argument bounds the recursion depth and
b - a suffices for every reachable call. -/
def symMerge (lt : α → α → Bool) : Nat → List α → Nat → Nat → Nat → List α
  | 0, l, _, _, _ => l
  | fuel + 1, l, a, m, b =>
    if m - a = 1 then
      let i := symSearchLow lt l a (b - m) m b
      bubbleUp l a (i - 1 - a)
    else if b - m = 1 then
      let i := symSearchHigh lt l m (m - a) a m
      bubbleDown l m (m - i)
    else
      let mid := (a + b) / 2
      let n := mid + m
      let s0 := if mid < m then n - b else a
      let r0 := if mid < m then mid else m
      let p := n - 1
      let start := symSearchMid lt l p (r0 - s0) s0 r0
      let e := n - start
      let l1 := if start < m && m < e then rotate l start m e else l
      let l2 := if a < start && start < mid then symMerge lt fuel l1 a start mid else l1
      if mid < e && e < b then symMerge lt fuel l2 mid e b else l2

/-- stableBlocks models the first loop of the Go stable(data, n): insertion
sort on consecutive blocks, for while b <= n [ insertionSort(a, b); a = b;
b += 20 ]; it returns the list together with the final block start a. -/
def stableBlocks (lt : α → α → Bool) : Nat → List α → Nat → Nat → Nat → List α × Nat
  | 0, l, a, _, _ => (l, a)
  | fuel + 1, l, a, b, n =>
    if b ≤ n then stableBlocks lt fuel (insertionSortGo lt l a b) b (b + 20) n
    else (l, a)

/-- stableMergeInner models the inner merge loop of stable: while b <= n
[ symMerge(a, a+blockSize, b); a = b; b += 2*blockSize ]; it returns the list
together with the final a. -/
def stableMergeInner (lt : α → α → Bool) : Nat → List α → Nat → Nat → Nat → Nat → List α × Nat
  | 0, l, a, _, _, _ => (l, a)
  | fuel + 1, l, a, b, bs, n =>
    if b ≤ n then
      stableMergeInner lt fuel (symMerge lt (b - a) l a (a + bs) b) b (b + 2 * bs) bs n
    else (l, a)

/-- stableMergeLoop models the outer merge loop of stable: while
blockSize < n, run the inner merge loop, merge the tail block if any, then
double blockSize. -/
def stableMergeLoop (lt : α → α → Bool) : Nat → List α → Nat → Nat → List α
  | 0, l, _, _ => l
  | fuel + 1, l, bs, n =>
    if bs < n then
      let la := stableMergeInner lt (n + 1) l 0 (2 * bs) bs n
      let m := la.2 + bs
      let l2 := if m < n then symMerge lt (n - la.2) la.1 la.2 m n else la.1
      stableMergeLoop lt fuel l2 (2 * bs) n
    else l

/-- stableGo models the Go stable(data, n) run by sort.SliceStable: insertion
sort on blocks of 20, then rounds of symMerge with doubling block size. -/
def stableGo (lt : α → α → Bool) (l : List α) : List α :=
  let n := l.length
  let la := stableBlocks lt (n + 1) l 0 20 n
  let l2 := insertionSortGo lt la.1 la.2 n
  stableMergeLoop lt (n + 1) l2 20 n

/-- readCitiesSort models the finalization step of readCities (main.go lines
216-229): sort.SliceStable over the accumulated communes with the comparator
communeLess. -/
def readCitiesSort (communes : List Commune) : List Commune :=
  stableGo communeLess communes

/-! ### The enrichment worker geoAPIGouvFr (main.go lines 144-188)

The network is modelled as an oracle value describing the outcome of the
detail lookup for one identifier: either a transport error (http.Get returned
a non-nil error), or a response with a status code whose body read then either
fails, fails to decode, or decodes to a CommuneResponse. -/

/-- BodyOutcome models what happens to a response body: ioutil.ReadAll fails,
json.Unmarshal fails, or a CommuneResponse is decoded. -/
inductive BodyOutcome where
  | readErr
  | decodeErr
  | decoded (cs : CommuneResponse)
deriving DecidableEq, Repr

/-- FetchOutcome models the outcome of the http.Get detail lookup: a
transport error, or a response carrying a status code and a body outcome. -/
inductive FetchOutcome where
  | netErr
  | resp (status : Nat) (body : BodyOutcome)
deriving DecidableEq, Repr

/-- buildCommune models the record construction of geoAPIGouvFr (main.go
lines 163-186) on a decoded CommuneResponse: copy the name; resolve the
department and region names by a linear scan in which the last matching table
entry wins and "" means unresolved/absent; copy the postal codes when
non-empty; and when the geometry carries coordinates, store kind "Point" with
the first two source coordinates swapped from (lon, lat) to (lat, lon).
The result is none exactly when the coordinate list has exactly one element:
the Go code then evaluates cs.Geometry.Coordinates[1] after its len > 0
guard, which is an index-out-of-range panic that kills the process before
any message is sent. -/
def buildCommune (cs : CommuneResponse) (departements : List Departement)
    (regions : List Region) : Option Commune :=
  let depName : String :=
    if cs.properties.codeDepartement ≠ "" then
      departements.foldl
        (fun acc dep => if dep.code = cs.properties.codeDepartement then dep.nom else acc) ""
    else ""
  let regName : String :=
    if cs.properties.codeRegion ≠ "" then
      regions.foldl
        (fun acc reg => if reg.code = cs.properties.codeRegion then reg.nom else acc) ""
    else ""
  let codes : List String :=
    if cs.properties.codesPostaux.length > 0 then cs.properties.codesPostaux else []
  match cs.geometry.coordinates with
  | [] => some ⟨cs.properties.nom, depName, regName, codes, ⟨"", []⟩⟩
  | [_] => none
  | c0 :: c1 :: _ => some ⟨cs.properties.nom, depName, regName, codes, ⟨"Point", [c1, c0]⟩⟩

/-- geoAPIGouvFr models one worker invocation (main.go lines 144-188) as the
single message it emits: Sum.inl is the failure message on errorCh (the Go
code sends fmt.Errorf of the bare identifier), Sum.inr is the enriched record
on communeCh, and none models the index-out-of-range panic of buildCommune,
after which no message at all is sent.  A transport error or a 404 status is
a failure before the body is read; any other status proceeds to read and
decode the body. -/
def geoAPIGouvFr (codeInsee : String) (departements : List Departement)
    (regions : List Region) (r : FetchOutcome) : Option (String ⊕ Commune) :=
  match r with
  | .netErr => some (.inl codeInsee)
  | .resp status body =>
    if status = 404 then some (.inl codeInsee)
    else
      match body with
      | .readErr => some (.inl codeInsee)
      | .decodeErr => some (.inl codeInsee)
      | .decoded cs => (buildCommune cs departements regions).map .inr

/-- runSuccesses collects, over a whole run described by one fetch outcome per
listed identifier, the enriched records the workers send on communeCh. -/
def runSuccesses (departements : List Departement) (regions : List Region)
    (inputs : List (String × FetchOutcome)) : List Commune :=
  inputs.filterMap fun p =>
    match geoAPIGouvFr p.1 departements regions p.2 with
    | some (.inr c) => some c
    | _ => none

/-- runFailures collects, over a whole run, the failure identifiers the
workers send on errorCh. -/
def runFailures (departements : List Departement) (regions : List Region)
    (inputs : List (String × FetchOutcome)) : List String :=
  inputs.filterMap fun p =>
    match geoAPIGouvFr p.1 departements regions p.2 with
    | some (.inl e) => some e
    | _ => none

/-! ### The collector loop of readCities (main.go lines 190-213)

The select loop is modelled over a trace of observed events: one commune
received, communeCh observed closed, one error received, errorCh observed
closed, or a ticker tick.  Go semantics embedded in the model: the loop exits
as soon as both channel variables are nil, a closed-and-nilled channel is
never selected again (an event from it after closure makes the run stuck,
value none), and a trace that ends while a channel is still open leaves the
loop blocked (also none). -/

/-- CollectorEvent is one outcome of the select statement in readCities. -/
inductive CollectorEvent where
  | commune (c : Commune)
  | closeCommunes
  | failure (e : String)
  | closeErrors
  | tick
deriving DecidableEq, Repr

/-- readCitiesLoop models the collector loop: communesOpen/errorsOpen are the
two channel variables (true = not yet nil), acc is the accumulated commune
slice and logged the identifiers written to the error log.  It returns the
accumulator and log at loop exit, or none when the trace is impossible for
the loop (an event from an already-closed channel) or leaves it blocked. -/
def readCitiesLoop (communesOpen errorsOpen : Bool) (acc : List Commune)
    (logged : List String) (evs : List CollectorEvent) :
    Option (List Commune × List String) :=
  if communesOpen = false ∧ errorsOpen = false then some (acc, logged)
  else
    match evs with
    | [] => none
    | .commune c :: rest =>
      if communesOpen then readCitiesLoop communesOpen errorsOpen (acc ++ [c]) logged rest
      else none
    | .closeCommunes :: rest =>
      if communesOpen then readCitiesLoop false errorsOpen acc logged rest
      else none
    | .failure e :: rest =>
      if errorsOpen then readCitiesLoop communesOpen errorsOpen acc (logged ++ [e]) rest
      else none
    | .closeErrors :: rest =>
      if errorsOpen then readCitiesLoop communesOpen false acc logged rest
      else none
    | .tick :: rest => readCitiesLoop communesOpen errorsOpen acc logged rest

/-- wfTrace recognises the traces a real run can present to the collector:
no event from a channel after it closed, and nothing at all after both
channels closed (the loop has exited and the producers are gone). -/
def wfTrace (communesOpen errorsOpen : Bool) : List CollectorEvent → Bool
  | [] => true
  | ev :: rest =>
    if communesOpen = false ∧ errorsOpen = false then false
    else
      match ev with
      | .commune _ => communesOpen && wfTrace communesOpen errorsOpen rest
      | .closeCommunes => communesOpen && wfTrace false errorsOpen rest
      | .failure _ => errorsOpen && wfTrace communesOpen errorsOpen rest
      | .closeErrors => errorsOpen && wfTrace communesOpen false rest
      | .tick => wfTrace communesOpen errorsOpen rest

/-- communesOf projects a collector trace to the communes it delivers, in
order. -/
def communesOf (evs : List CollectorEvent) : List Commune :=
  evs.filterMap fun ev =>
    match ev with
    | .commune c => some c
    | _ => none

/-- failuresOf projects a collector trace to the failure identifiers it
delivers, in order. -/
def failuresOf (evs : List CollectorEvent) : List String :=
  evs.filterMap fun ev =>
    match ev with
    | .failure e => some e
    | _ => none

/-! ### JSON serialization (writeIntoJSON, main.go lines 233-243)

Enough of encoding/json to state what a marshalled Commune looks like: a
string field tagged omitempty is dropped when it is "", a field without
omitempty is always emitted, a nil slice marshals to null, and a struct-typed
field is always emitted (encoding/json has no empty value for structs). -/

/-- Json is the value tree the serializer produces. -/
inductive Json where
  | null
  | str (s : String)
  | num (q : ℚ)
  | arr (xs : List Json)
  | obj (fields : List (String × Json))

/-- marshalLocation models encoding/json on the Location struct: the type tag
has no omitempty and the coordinates slice marshals to null when nil.  The
worker only ever assigns a non-empty coordinate slice, so the empty list
stands for the Go nil slice. -/
def marshalLocation (loc : Location) : Json :=
  .obj [("type", .str loc.type),
        ("coordinates", if loc.coordinates.isEmpty then .null
                        else .arr (loc.coordinates.map .num))]

/-- marshalFields lists the members of the marshalled Commune object with its
json tags (main.go lines 19-25): nom always present, departement and region
dropped when empty (omitempty), codesPostaux always present (null for the nil
slice), and location always present — its json tag has no omitempty, and
encoding/json would ignore omitempty on a struct-typed field anyway. -/
def marshalFields (c : Commune) : List (String × Json) :=
  [("nom", .str c.nom)]
    ++ (if c.departement = "" then [] else [("departement", .str c.departement)])
    ++ (if c.region = "" then [] else [("region", .str c.region)])
    ++ [("codesPostaux", if c.codesPostaux.isEmpty then .null
                         else .arr (c.codesPostaux.map .str)),
        ("location", marshalLocation c.location)]

/-- marshalCommune models encoding/json on the Commune struct. -/
def marshalCommune (c : Commune) : Json :=
  .obj (marshalFields c)

mutual

/-- renderJson is a deterministic byte rendering of a Json value, standing in
for the byte output of json.MarshalIndent: two equal Json values render to
identical bytes. -/
def renderJson : Json → String
  | .null => "null"
  | .str s => reprStr s
  | .num q => reprStr q
  | .arr xs => "[" ++ renderJsonList xs ++ "]"
  | .obj fs => "\x7b" ++ renderJsonFields fs ++ "\x7d"

/-- renderJsonList renders the comma-separated elements of an array. -/
def renderJsonList : List Json → String
  | [] => ""
  | [x] => renderJson x
  | x :: xs => renderJson x ++ "," ++ renderJsonList xs

/-- renderJsonFields renders the comma-separated members of an object. -/
def renderJsonFields : List (String × Json) → String
  | [] => ""
  | [f] => reprStr f.1 ++ ":" ++ renderJson f.2
  | f :: fs => reprStr f.1 ++ ":" ++ renderJson f.2 ++ "," ++ renderJsonFields fs

end

/-! ### Ordering vocabulary for the finalization claims -/

/-- hasParsablePostal says a record has a non-empty postal-code list whose
first code (leading zeros stripped) parses as an integer: the records the
comparator of readCities can actually rank. -/
def hasParsablePostal (c : Commune) : Bool :=
  !c.codesPostaux.isEmpty && (postalValue (c.codesPostaux.headD "")).isSome

/-- postalOf is the numeric rank of a record with a parsable first postal
code (0 for the others, which hasParsablePostal excludes). -/
def postalOf (c : Commune) : Int :=
  (postalValue (c.codesPostaux.headD "")).getD 0

/-- postalLe is the pairwise relation the finalized order satisfies among
rankable records: whenever both sides are rankable, the left rank is at most
the right rank. -/
def postalLe (a b : Commune) : Prop :=
  hasParsablePostal a = true → hasParsablePostal b = true → postalOf a ≤ postalOf b

/-- appearsBefore says record A occupies an earlier position than record B
somewhere in the list. -/
def appearsBefore (A B : Commune) (l : List Commune) : Prop :=
  ∃ i j : Fin l.length, i.val < j.val ∧ l.get i = A ∧ l.get j = B

instance (A B : Commune) (l : List Commune) : Decidable (appearsBefore A B l) := by
  unfold appearsBefore
  infer_instance

/-! ### A functional description of the insertion-sort phase

For lists of at most 20 elements the Go stable sort runs exactly one
insertion sort over the whole range.  The swap-loop of that insertion sort is
the right-to-left insertion goInsertR below; the lemmas prove the index-based
translation equal to the functional one, and the functional one is then
analysed. -/

/-- goInsertR inserts x into xs from the right: x moves left past the maximal
suffix of xs whose every element y satisfies lt x y, exactly as the inner
swap loop of insertionSort does. -/
def goInsertR (lt : α → α → Bool) (xs : List α) (x : α) : List α :=
  (xs.reverse.dropWhile fun y => lt x y).reverse
    ++ x :: (xs.reverse.takeWhile fun y => lt x y).reverse

/-- goSortL folds goInsertR over the list: the functional form of the
insertion-sort phase. -/
def goSortL (lt : α → α → Bool) (l : List α) : List α :=
  List.foldl (goInsertR lt) [] l

theorem getq_append (zs : List α) (w : α) (ws : List α) :
    (zs ++ w :: ws).get? zs.length = some w := by
  induction zs with
  | nil => rfl
  | cons z zs ih =>
    show (z :: (zs ++ w :: ws)).get? (zs.length + 1) = some w
    rw [List.get?_cons_succ]
    exact ih

theorem setq_append (zs : List α) (w v : α) (ws : List α) :
    (zs ++ w :: ws).set zs.length v = zs ++ v :: ws := by
  induction zs with
  | nil => rfl
  | cons z zs ih => simp [ih]

theorem lswap_adjacent (zs : List α) (y x : α) (ys : List α) :
    lswap (zs ++ y :: x :: ys) (zs.length + 1) zs.length = zs ++ x :: y :: ys := by
  have h1 : (zs ++ y :: x :: ys).get? (zs.length + 1) = some x := by
    have h := getq_append (zs ++ [y]) x ys
    simpa [List.append_assoc] using h
  have h2 : (zs ++ y :: x :: ys).get? zs.length = some y := getq_append zs y (x :: ys)
  have h3 : (zs ++ y :: x :: ys).set (zs.length + 1) y = zs ++ y :: y :: ys := by
    have h := setq_append (zs ++ [y]) x y ys
    simp only [List.append_assoc, List.length_append, List.singleton_append,
      List.length_cons, List.length_nil, Nat.zero_add] at h
    exact h
  simp only [lswap, h1, h2, h3]
  exact setq_append zs y x (y :: ys)

theorem goInsertR_append_of_lt (lt : α → α → Bool) (zs : List α) (y x : α)
    (h : lt x y = true) :
    goInsertR lt (zs ++ [y]) x = goInsertR lt zs x ++ [y] := by
  unfold goInsertR
  simp [List.reverse_append, h]

theorem goInsertR_append_of_not_lt (lt : α → α → Bool) (zs : List α) (y x : α)
    (h : lt x y = false) :
    goInsertR lt (zs ++ [y]) x = (zs ++ [y]) ++ [x] := by
  unfold goInsertR
  simp [List.reverse_append, h]

theorem insertionSortInner_eq (lt : α → α → Bool) (xs : List α) :
    ∀ (x : α) (ys : List α),
      insertionSortInner lt 0 (xs ++ x :: ys) xs.length = goInsertR lt xs x ++ ys := by
  induction xs using List.reverseRecOn with
  | nil => intro x ys; rfl
  | append_singleton zs y ih =>
    intro x ys
    have hlist : (zs ++ [y]) ++ x :: ys = zs ++ y :: x :: ys := by simp
    have hlen : (zs ++ [y]).length = zs.length + 1 := by simp
    rw [hlist, hlen]
    have hx1 : (zs ++ y :: x :: ys).get? (zs.length + 1) = some x := by
      have h := getq_append (zs ++ [y]) x ys
      rw [hlen] at h
      rw [List.append_assoc] at h
      simpa using h
    have hget : ltAt lt (zs ++ y :: x :: ys) (zs.length + 1) zs.length = lt x y := by
      simp only [ltAt, hx1, getq_append zs y (x :: ys)]
    cases hxy : lt x y with
    | false =>
      rw [insertionSortInner]
      rw [hget, hxy]
      simp only [Bool.and_false, Bool.false_eq_true, if_false]
      rw [goInsertR_append_of_not_lt lt zs y x hxy]
      simp
    | true =>
      rw [insertionSortInner]
      rw [hget, hxy]
      simp only [Nat.zero_lt_succ, Bool.and_true, decide_eq_true_eq, if_pos]
      rw [lswap_adjacent zs y x ys]
      rw [ih x (y :: ys)]
      rw [goInsertR_append_of_lt lt zs y x hxy]
      simp

theorem goInsertR_length (lt : α → α → Bool) (xs : List α) (x : α) :
    (goInsertR lt xs x).length = xs.length + 1 := by
  have h := congrArg List.length
    (List.takeWhile_append_dropWhile (p := fun y => lt x y) (l := xs.reverse))
  simp only [List.length_append, List.length_reverse] at h
  unfold goInsertR
  simp only [List.length_append, List.length_reverse, List.length_cons]
  omega

theorem insertionSortOuter_eq (lt : α → α → Bool) (rest : List α) :
    ∀ acc : List α,
      insertionSortOuter lt 0 rest.length (acc ++ rest) acc.length
        = List.foldl (goInsertR lt) acc rest := by
  induction rest with
  | nil => intro acc; simp [insertionSortOuter]
  | cons x rest ih =>
    intro acc
    show insertionSortOuter lt 0 (rest.length + 1) (acc ++ x :: rest) acc.length = _
    rw [insertionSortOuter]
    rw [insertionSortInner_eq lt acc x rest]
    have hlen : acc.length + 1 = (goInsertR lt acc x).length := (goInsertR_length lt acc x).symm
    rw [hlen, ih (goInsertR lt acc x)]
    rfl

theorem insertionSortGo_eq_goSortL (lt : α → α → Bool) (l : List α) :
    insertionSortGo lt l 0 l.length = goSortL lt l := by
  cases l with
  | nil => rfl
  | cons z rest =>
    have h := insertionSortOuter_eq lt rest [z]
    simpa [insertionSortGo, goSortL] using h

theorem insertionSortGo_stop (lt : α → α → Bool) (l : List α) (a b : Nat) (h : b ≤ a + 1) :
    insertionSortGo lt l a b = l := by
  unfold insertionSortGo
  have hf : b - (a + 1) = 0 := by omega
  rw [hf, insertionSortOuter]

theorem stableGo_of_length_le20 (lt : α → α → Bool) (l : List α) (h : l.length ≤ 20) :
    stableGo lt l = insertionSortGo lt l 0 l.length := by
  rcases Nat.lt_or_ge l.length 20 with h20 | h20
  · simp only [stableGo]
    have hb : stableBlocks lt (l.length + 1) l 0 20 l.length = (l, 0) := by
      rw [stableBlocks, if_neg (by omega)]
    rw [hb]
    rw [stableMergeLoop, if_neg (by omega)]
  · have hlen : l.length = 20 := Nat.le_antisymm h h20
    simp only [stableGo]
    have hb : stableBlocks lt (l.length + 1) l 0 20 l.length = (insertionSortGo lt l 0 20, 20) := by
      rw [stableBlocks, if_pos (by omega)]
      have hk : l.length = 19 + 1 := by omega
      rw [hk]
      rw [stableBlocks, if_neg (by omega)]
    rw [hb]
    have hnoop : insertionSortGo lt (insertionSortGo lt l 0 20) 20 l.length
        = insertionSortGo lt l 0 20 := by
      rw [hlen]
      exact insertionSortGo_stop lt _ 20 20 (by omega)
    rw [hnoop]
    rw [stableMergeLoop, if_neg (by omega)]
    rw [hlen]

theorem readCitiesSort_eq_goSortL (l : List Commune) (h : l.length ≤ 20) :
    readCitiesSort l = goSortL communeLess l := by
  unfold readCitiesSort
  rw [stableGo_of_length_le20 communeLess l h, insertionSortGo_eq_goSortL]

/-! ### Facts about the comparator -/

theorem communeLess_true_of_left (ci cj : Commune) (h : hasParsablePostal ci = false) :
    communeLess ci cj = true := by
  unfold communeLess
  cases hcp : ci.codesPostaux with
  | nil => simp
  | cons a rest =>
    have hpv : postalValue ((a :: rest).headD "") = none := by
      unfold hasParsablePostal at h
      rw [hcp] at h
      cases hx : postalValue ((a :: rest).headD "") with
      | none => rfl
      | some v => rw [hx] at h; simp at h
    rw [hpv]
    split
    · rfl
    · rfl

theorem communeLess_true_of_right (ci cj : Commune) (h : hasParsablePostal cj = false) :
    communeLess ci cj = true := by
  unfold communeLess
  cases hcp : cj.codesPostaux with
  | nil => simp
  | cons a rest =>
    have hpv : postalValue ((a :: rest).headD "") = none := by
      unfold hasParsablePostal at h
      rw [hcp] at h
      cases hx : postalValue ((a :: rest).headD "") with
      | none => rfl
      | some v => rw [hx] at h; simp at h
    rw [hpv]
    split
    · rfl
    · cases postalValue (ci.codesPostaux.headD "") <;> rfl

theorem hasParsablePostal_spec (c : Commune) (h : hasParsablePostal c = true) :
    c.codesPostaux.length ≠ 0 ∧ postalValue (c.codesPostaux.headD "") = some (postalOf c) := by
  unfold hasParsablePostal at h
  cases hcp : c.codesPostaux with
  | nil => rw [hcp] at h; simp at h
  | cons a rest =>
    cases hx : postalValue ((a :: rest).headD "") with
    | none => rw [hcp, hx] at h; simp at h
    | some v =>
      refine ⟨by simp, ?_⟩
      unfold postalOf
      rw [hcp, hx]
      rfl

theorem communeLess_of_valid (ci cj : Commune) (hi : hasParsablePostal ci = true)
    (hj : hasParsablePostal cj = true) :
    communeLess ci cj = decide (postalOf ci < postalOf cj) := by
  obtain ⟨hne_i, hvi⟩ := hasParsablePostal_spec ci hi
  obtain ⟨hne_j, hvj⟩ := hasParsablePostal_spec cj hj
  unfold communeLess
  rw [if_neg (by simp [hne_i, hne_j])]
  rw [hvi, hvj]

/-! ### The finalized order among rankable records (insertion-sort phase) -/

theorem dropWhile_cons_head_false (p : α → Bool) (l : List α) (y : α) (t : List α)
    (h : l.dropWhile p = y :: t) : p y = false := by
  induction l with
  | nil => simp at h
  | cons a l ih =>
    rw [List.dropWhile_cons] at h
    by_cases hpa : p a = true
    · rw [if_pos hpa] at h; exact ih h
    · rw [if_neg hpa] at h
      rw [List.cons.injEq] at h
      rw [← h.1]
      revert hpa
      cases p a <;> simp

theorem goInsertR_splits (lt : α → α → Bool) (acc : List α) (x : α) :
    ∃ P S, P ++ S = acc ∧ goInsertR lt acc x = P ++ x :: S := by
  refine ⟨(acc.reverse.dropWhile fun y => lt x y).reverse,
    (acc.reverse.takeWhile fun y => lt x y).reverse, ?_, rfl⟩
  rw [← List.reverse_append, List.takeWhile_append_dropWhile, List.reverse_reverse]

theorem goSortL_perm (lt : α → α → Bool) (l : List α) : (goSortL lt l).Perm l := by
  suffices h : ∀ rest acc : List α, (List.foldl (goInsertR lt) acc rest).Perm (acc ++ rest) by
    simpa [goSortL] using h l []
  intro rest
  induction rest with
  | nil => intro acc; simp
  | cons x rest ih =>
    intro acc
    show (List.foldl (goInsertR lt) (goInsertR lt acc x) rest).Perm (acc ++ x :: rest)
    refine (ih (goInsertR lt acc x)).trans ?_
    obtain ⟨P, S, hPS, hins⟩ := goInsertR_splits lt acc x
    rw [hins, ← hPS]
    have e1 : (P ++ x :: S) ++ rest = P ++ x :: (S ++ rest) := by simp
    rw [e1]
    refine List.Perm.trans List.perm_middle ?_
    have e2 : P ++ (S ++ rest) = (P ++ S) ++ rest := (List.append_assoc P S rest).symm
    rw [e2]
    exact List.perm_middle.symm

theorem goInsertR_pairwise (acc : List Commune) (x : Commune)
    (h : acc.Pairwise postalLe) :
    (goInsertR communeLess acc x).Pairwise postalLe := by
  have hsplit : (acc.reverse.dropWhile fun y => communeLess x y).reverse
      ++ (acc.reverse.takeWhile fun y => communeLess x y).reverse = acc := by
    rw [← List.reverse_append, List.takeWhile_append_dropWhile, List.reverse_reverse]
  have hPair : ((acc.reverse.dropWhile fun y => communeLess x y).reverse
      ++ (acc.reverse.takeWhile fun y => communeLess x y).reverse).Pairwise postalLe := by
    rw [hsplit]; exact h
  rw [List.pairwise_append] at hPair
  obtain ⟨hPd, hPt, hcross⟩ := hPair
  show ((acc.reverse.dropWhile fun y => communeLess x y).reverse
      ++ x :: (acc.reverse.takeWhile fun y => communeLess x y).reverse).Pairwise postalLe
  rw [List.pairwise_append]
  refine ⟨hPd, ?_, ?_⟩
  · rw [List.pairwise_cons]
    refine ⟨?_, hPt⟩
    intro b hb hxv hbv
    have hbTW : b ∈ acc.reverse.takeWhile fun y => communeLess x y := List.mem_reverse.mp hb
    have hlt : communeLess x b = true := List.mem_takeWhile_imp hbTW
    rw [communeLess_of_valid x b hxv hbv] at hlt
    exact Int.le_of_lt (of_decide_eq_true hlt)
  · intro a ha b hb
    rcases List.mem_cons.mp hb with hbx | hbt
    · rw [hbx]
      intro hav hxv
      cases hDW : acc.reverse.dropWhile fun y => communeLess x y with
      | nil => rw [hDW] at ha; simp at ha
      | cons y0 t =>
        have hy0 : communeLess x y0 = false :=
          dropWhile_cons_head_false _ acc.reverse y0 t hDW
        have hy0v : hasParsablePostal y0 = true := by
          by_contra hcon
          have hf : hasParsablePostal y0 = false := by
            revert hcon; cases hasParsablePostal y0 <;> simp
          rw [communeLess_true_of_right x y0 hf] at hy0
          exact Bool.true_eq_false.mp hy0
        have hyx : postalOf y0 ≤ postalOf x := by
          rw [communeLess_of_valid x y0 hxv hy0v] at hy0
          exact Int.not_lt.mp (of_decide_eq_false hy0)
        rw [hDW] at ha
        have ha2 : a ∈ t.reverse ++ [y0] := by simpa using ha
        rcases List.mem_append.mp ha2 with hat | hay
        · have hPd2 : (t.reverse ++ [y0]).Pairwise postalLe := by
            rw [hDW] at hPd
            simpa using hPd
          rw [List.pairwise_append] at hPd2
          have hle := hPd2.2.2 a hat y0 (by simp) hav hy0v
          exact le_trans hle hyx
        · have hay0 : a = y0 := by simpa using hay
          rw [hay0]
          exact hyx
    · exact hcross a ha b hbt

theorem goSortL_pairwise (l : List Commune) :
    (goSortL communeLess l).Pairwise postalLe := by
  suffices h : ∀ rest acc : List Commune, acc.Pairwise postalLe →
      (List.foldl (goInsertR communeLess) acc rest).Pairwise postalLe by
    exact h l [] List.Pairwise.nil
  intro rest
  induction rest with
  | nil => intro acc hacc; exact hacc
  | cons x rest ih => intro acc hacc; exact ih _ (goInsertR_pairwise acc x hacc)

/-! ### Example records used to evaluate the finalization on concrete runs -/

/-- mkPlain builds a record that carries only a name and postal codes, the
shape a worker produces for a detail response without department, region or
geometry data. -/
def mkPlain (nom : String) (codes : List String) : Commune :=
  ⟨nom, "", "", codes, ⟨"", []⟩⟩

/-- sansCode is a malformed record: its postal-code list is empty. -/
def sansCode : Commune := mkPlain "SansCode" []

/-- paris1 is a record with the parsable postal code 75001. -/
def paris1 : Commune := mkPlain "Paris" ["75001"]

/-- zeroVille is a record whose first postal code is entirely zeros. -/
def zeroVille : Commune := mkPlain "ZeroVille" ["00000"]

/-- lyon is a record with the parsable postal code 69001. -/
def lyon : Commune := mkPlain "Lyon" ["69001"]

/-- abries is a record with the parsable postal code 05460. -/
def abries : Commune := mkPlain "Abries" ["05460"]

/-- ristolas is a second record with the same postal code 05460. -/
def ristolas : Commune := mkPlain "Ristolas" ["05460"]

/-- ex21 is a 21-record accumulation: one record beyond the 20-element
insertion-sort block, so the symMerge phase of the library sort runs. -/
def ex21 : List Commune :=
  [mkPlain "" ["2"], mkPlain "" [], mkPlain "" ["1"], mkPlain "" ["1"], mkPlain "" ["2"],
   mkPlain "" ["2"], mkPlain "" ["1"], mkPlain "" ["1"], mkPlain "" ["3"], mkPlain "" ["1"],
   mkPlain "" ["1"], mkPlain "" ["3"], mkPlain "" ["3"], mkPlain "" ["1"], mkPlain "" ["2"],
   mkPlain "" ["1"], mkPlain "" ["1"], mkPlain "" ["2"], mkPlain "" ["1"], mkPlain "" ["2"],
   mkPlain "" ["3"]]

set_option maxRecDepth 40000 in
/-- On a 21-record run the merge phase of the library sort, driven by the
inconsistent comparator of readCities, even breaks the relative order of two
records with parsable postal codes: a record ranked 3 lands at position 10,
ahead of records ranked 2 at positions 12 and up.  This is why the ordering
law of the spec can only be established for runs of at most 20 records. -/
theorem mergePhase_reorders_valid_records :
    ((readCitiesSort ex21).getD 10 (mkPlain "" [])).codesPostaux = ["3"]
    ∧ ((readCitiesSort ex21).getD 12 (mkPlain "" [])).codesPostaux = ["2"] := by
  decide

set_option maxRecDepth 40000 in
/-- C1, claim as stated, refuted: with two distinct records sharing postal
code 05460, the finalized sequence keeps input order, so ristolas does not
appear before abries although its numeric value is ≤ abries's value; the
stated equivalence (before iff ≤) fails at this input. -/
theorem readCities_le_iff_order_counterexample :
    hasParsablePostal abries = true ∧ hasParsablePostal ristolas = true
    ∧ postalOf ristolas ≤ postalOf abries
    ∧ readCitiesSort [abries, ristolas] = [abries, ristolas]
    ∧ ¬ appearsBefore ristolas abries (readCitiesSort [abries, ristolas]) := by
  decide

/-- C1, amended: on a run that accumulates at most 20 records (so the sort is
the single insertion-sort block), the finalized sequence is a permutation of
the accumulation and, among records with a valid leading numeric postal code,
position order implies value ≤ and strict value < implies position order. -/
theorem readCities_final_order_of_small_run (l : List Commune) (h : l.length ≤ 20) :
    (readCitiesSort l).Perm l
    ∧ (∀ A B : Commune, hasParsablePostal A = true → hasParsablePostal B = true →
        appearsBefore A B (readCitiesSort l) → postalOf A ≤ postalOf B)
    ∧ (∀ A B : Commune, hasParsablePostal A = true → hasParsablePostal B = true →
        A ∈ readCitiesSort l → B ∈ readCitiesSort l → postalOf A < postalOf B →
        appearsBefore A B (readCitiesSort l)) := by
  have he := readCitiesSort_eq_goSortL l h
  have hperm : (readCitiesSort l).Perm l := by
    rw [he]; exact goSortL_perm communeLess l
  have hpw : (readCitiesSort l).Pairwise postalLe := by
    rw [he]; exact goSortL_pairwise l
  refine ⟨hperm, ?_, ?_⟩
  · intro A B hA hB hbefore
    obtain ⟨i, j, hij, hiA, hjB⟩ := hbefore
    have hR := List.pairwise_iff_get.mp hpw i j hij
    rw [hiA, hjB] at hR
    exact hR hA hB
  · intro A B hA hB hAmem hBmem hlt
    obtain ⟨i, hiA⟩ := List.mem_iff_get.mp hAmem
    obtain ⟨j, hjB⟩ := List.mem_iff_get.mp hBmem
    rcases Nat.lt_trichotomy i.val j.val with hij | hij | hij
    · exact ⟨i, j, hij, hiA, hjB⟩
    · have hAB : A = B := by rw [← hiA, ← hjB]; congr 1; exact Fin.ext hij
      rw [hAB] at hlt
      exact absurd hlt (lt_irrefl _)
    · have hR := List.pairwise_iff_get.mp hpw j i hij
      rw [hiA, hjB] at hR
      have hle := hR hB hA
      omega

/-- Witness for the amended C1 at a concrete two-record run. -/
theorem readCities_final_order_of_small_run_witness :
    ([lyon, paris1] : List Commune).length ≤ 20
    ∧ ((readCitiesSort [lyon, paris1]).Perm [lyon, paris1]
      ∧ (∀ A B : Commune, hasParsablePostal A = true → hasParsablePostal B = true →
          appearsBefore A B (readCitiesSort [lyon, paris1]) → postalOf A ≤ postalOf B)
      ∧ (∀ A B : Commune, hasParsablePostal A = true → hasParsablePostal B = true →
          A ∈ readCitiesSort [lyon, paris1] → B ∈ readCitiesSort [lyon, paris1] →
          postalOf A < postalOf B → appearsBefore A B (readCitiesSort [lyon, paris1]))) :=
  ⟨by decide, readCities_final_order_of_small_run [lyon, paris1] (by decide)⟩

set_option maxRecDepth 40000 in
/-- C2: the code contradicts the claim that malformed records always precede
valid ones.  On the accumulation [sansCode, paris1] — a record with no postal
codes followed by a valid one — the comparator answers true on both sides of
the pair, the insertion sort therefore swaps them, and the final sequence
puts the valid record first and the malformed record last. -/
theorem readCities_malformed_lands_after_valid :
    sansCode.codesPostaux = [] ∧ hasParsablePostal paris1 = true
    ∧ readCitiesSort [sansCode, paris1] = [paris1, sansCode] := by
  decide

set_option maxRecDepth 40000 in
/-- C10, claim as stated, refuted: a record whose first postal code is
"00000" is treated as malformed by the comparator, but it is not placed ahead
of parseable records: on the accumulation [zeroVille, lyon] the final
sequence is [lyon, zeroVille]. -/
theorem readCities_allZero_not_first_counterexample :
    postalValue "00000" = none ∧ hasParsablePostal lyon = true
    ∧ readCitiesSort [zeroVille, lyon] = [lyon, zeroVille] := by
  decide

/-- C10, amended: for a record whose first postal code consists entirely of
'0' characters, stripping leading zeros yields the empty string, ParseInt
fails, and the comparator of readCities treats the record as malformed — the
comparison answers true whichever side the record is on (so the sort gives it
no defined place, rather than reliably ranking it first). -/
theorem allZeroPostal_ranked_malformed (m c : Commune) (z : String) (rest : List String)
    (hm : m.codesPostaux = z :: rest) (_hz : z ≠ "")
    (hall : z.toList.all (fun ch => ch = '0') = true) :
    postalValue z = none ∧ communeLess m c = true ∧ communeLess c m = true := by
  have hpv : postalValue z = none := by
    unfold postalValue goTrimLeftZeros
    have hdrop : z.toList.dropWhile (fun ch => ch = '0') = [] := by
      rw [List.dropWhile_eq_nil_iff]
      intro x hx
      exact List.all_eq_true.mp hall x hx
    rw [hdrop]
    rfl
  have hmf : hasParsablePostal m = false := by
    unfold hasParsablePostal
    rw [hm]
    simp [hpv]
  exact ⟨hpv, communeLess_true_of_left m c hmf, communeLess_true_of_right c m hmf⟩

/-- Witness for the amended C10 at the record zeroVille against lyon. -/
theorem allZeroPostal_ranked_malformed_witness :
    (zeroVille.codesPostaux = "00000" :: [] ∧ "00000" ≠ ""
      ∧ ("00000".toList.all (fun ch => ch = '0') = true))
    ∧ (postalValue "00000" = none ∧ communeLess zeroVille lyon = true
      ∧ communeLess lyon zeroVille = true) :=
  ⟨by decide, allZeroPostal_ranked_malformed zeroVille lyon "00000" [] (by decide) (by decide)
    (by decide)⟩

/-! ### Worker claims: example responses and reference entries -/

/-- depParis is a department reference entry with code 75. -/
def depParis : Departement := ⟨"Paris", "75"⟩

/-- regIdf is a region reference entry with code 11. -/
def regIdf : Region := ⟨"Ile-de-France", "11"⟩

/-- csParis is a decoded detail response with department code 75, region code
11, two postal codes and a centroid in (lon, lat) order. -/
def csParis : CommuneResponse :=
  ⟨"Feature", ⟨"Paris", "75056", ["75001", "75002"], "75", "11", 2165423⟩,
    ⟨"Point", [(2.35 : ℚ), (48.85 : ℚ)]⟩⟩

/-- parisEnriched is the record the worker builds from csParis against the
tables [depParis] and [regIdf]. -/
def parisEnriched : Commune :=
  ⟨"Paris", "Paris", "Ile-de-France", ["75001", "75002"],
    ⟨"Point", [(48.85 : ℚ), (2.35 : ℚ)]⟩⟩

/-- csOneCoord is a decoded detail response whose geometry carries exactly one
coordinate: the shape that drives the worker into the out-of-range access. -/
def csOneCoord : CommuneResponse :=
  ⟨"Feature", ⟨"Paris", "75056", ["75001"], "75", "11", 0⟩, ⟨"Point", [(2.35 : ℚ)]⟩⟩

/-- csBourg is a decoded detail response with no department or region code and
no geometry coordinates. -/
def csBourg : CommuneResponse :=
  ⟨"Feature", ⟨"Bourg", "01001", ["01400"], "", "", 0⟩, ⟨"", []⟩⟩

/-- bourg is the record the worker builds from csBourg: no department, no
region, zero-valued location. -/
def bourg : Commune := ⟨"Bourg", "", "", ["01400"], ⟨"", []⟩⟩

/-- C3, claim as stated, refuted: on a decoded response whose geometry has a
single coordinate, the worker's len > 0 guard passes and the access to
Coordinates[1] panics before any send, so this identifier produces zero
messages (and the panic kills the process). -/
theorem worker_zero_messages_counterexample :
    geoAPIGouvFr "75056" [] [] (.resp 200 (.decoded csOneCoord)) = none := by
  rfl

/-- C3, amended: provided no decoded response carries a single-coordinate
geometry (the panic case), every listed identifier produces exactly one
message, on exactly one of the two channels, so accumulated successes plus
logged failures equal the number of identifiers. -/
theorem run_success_failure_count (departements : List Departement) (regions : List Region)
    (inputs : List (String × FetchOutcome))
    (h : ∀ p ∈ inputs, (geoAPIGouvFr p.1 departements regions p.2).isSome = true) :
    (runSuccesses departements regions inputs).length
      + (runFailures departements regions inputs).length = inputs.length := by
  induction inputs with
  | nil => rfl
  | cons p rest ih =>
    have hp := h p (List.mem_cons_self p rest)
    have hrest := fun q hq => h q (List.mem_cons_of_mem p hq)
    have ihr := ih hrest
    cases hgeo : geoAPIGouvFr p.1 departements regions p.2 with
    | none => rw [hgeo] at hp; simp at hp
    | some msg =>
      cases msg with
      | inl e =>
        simp only [runSuccesses, runFailures, List.filterMap_cons, hgeo] at ihr ⊢
        simp only [List.length_cons]
        omega
      | inr c =>
        simp only [runSuccesses, runFailures, List.filterMap_cons, hgeo] at ihr ⊢
        simp only [List.length_cons]
        omega

/-- Witness for the amended C3: a run over two identifiers, one transport
error and one decodable response, yields one success plus one failure. -/
theorem run_success_failure_count_witness :
    (∀ p ∈ [("01001", FetchOutcome.netErr),
            ("75056", FetchOutcome.resp 200 (.decoded csParis))],
      (geoAPIGouvFr p.1 [depParis] [regIdf] p.2).isSome = true)
    ∧ (runSuccesses [depParis] [regIdf]
        [("01001", FetchOutcome.netErr),
         ("75056", FetchOutcome.resp 200 (.decoded csParis))]).length
      + (runFailures [depParis] [regIdf]
          [("01001", FetchOutcome.netErr),
           ("75056", FetchOutcome.resp 200 (.decoded csParis))]).length = 2 :=
  ⟨by decide, run_success_failure_count [depParis] [regIdf] _ (by decide)⟩

/-- C4: whenever the decoded geometry carries at least a coordinate pair in
(lon, lat) order, the worker stores location kind "Point" with the pair
swapped to (lat, lon). -/
theorem worker_swaps_centroid (cs : CommuneResponse) (departements : List Departement)
    (regions : List Region) (lon lat : ℚ) (rest : List ℚ)
    (h : cs.geometry.coordinates = lon :: lat :: rest) :
    ∃ c, buildCommune cs departements regions = some c
      ∧ c.location = ⟨"Point", [lat, lon]⟩ := by
  unfold buildCommune
  rw [h]
  exact ⟨_, rfl, rfl⟩

/-- Witness for C4: the centroid [2.35, 48.85] of csParis is stored as
coordinates [48.85, 2.35]. -/
theorem worker_swaps_centroid_witness :
    csParis.geometry.coordinates = (2.35 : ℚ) :: (48.85 : ℚ) :: []
    ∧ ∃ c, buildCommune csParis [depParis] [regIdf] = some c
        ∧ c.location = ⟨"Point", [(48.85 : ℚ), (2.35 : ℚ)]⟩ :=
  ⟨rfl, worker_swaps_centroid csParis [depParis] [regIdf] 2.35 48.85 [] rfl⟩

/-- foldl_scan_spec characterises the linear scan the worker runs over a
reference table: the fold either ends on the name of some matching entry (the
last one), or, when no entry matches, returns the initial accumulator. -/
theorem foldl_scan_spec {β : Type} (code nomf : β → String) (k : String) (table : List β) :
    ∀ init : String,
      (∃ d ∈ table, code d = k
        ∧ table.foldl (fun acc dep => if code dep = k then nomf dep else acc) init = nomf d)
      ∨ ((∀ d ∈ table, code d ≠ k)
        ∧ table.foldl (fun acc dep => if code dep = k then nomf dep else acc) init = init) := by
  induction table with
  | nil => intro init; right; exact ⟨by simp, rfl⟩
  | cons d rest ih =>
    intro init
    by_cases hd : code d = k
    · rcases ih (nomf d) with ⟨d2, hd2mem, hd2code, hd2eq⟩ | ⟨hnone, heq⟩
      · left
        exact ⟨d2, List.mem_cons_of_mem d hd2mem, hd2code,
          by simp only [List.foldl_cons, if_pos hd]; exact hd2eq⟩
      · left
        exact ⟨d, List.mem_cons_self d rest, hd,
          by simp only [List.foldl_cons, if_pos hd]; exact heq⟩
    · rcases ih init with ⟨d2, hd2mem, hd2code, hd2eq⟩ | ⟨hnone, heq⟩
      · left
        exact ⟨d2, List.mem_cons_of_mem d hd2mem, hd2code,
          by simp only [List.foldl_cons, if_neg hd]; exact hd2eq⟩
      · right
        refine ⟨?_, by simp only [List.foldl_cons, if_neg hd]; exact heq⟩
        intro d2 hd2
        rcases List.mem_cons.mp hd2 with rfl | hmem
        · exact hd
        · exact hnone d2 hmem

/-- buildCommune_fields reads the four data fields off a successfully built
record: they are exactly the values the worker code assigns. -/
theorem buildCommune_fields (cs : CommuneResponse) (departements : List Departement)
    (regions : List Region) (c : Commune) (h : buildCommune cs departements regions = some c) :
    c.nom = cs.properties.nom
    ∧ c.departement = (if cs.properties.codeDepartement ≠ "" then
        departements.foldl
          (fun acc dep => if dep.code = cs.properties.codeDepartement then dep.nom else acc) ""
      else "")
    ∧ c.region = (if cs.properties.codeRegion ≠ "" then
        regions.foldl
          (fun acc reg => if reg.code = cs.properties.codeRegion then reg.nom else acc) ""
      else "")
    ∧ c.codesPostaux = (if cs.properties.codesPostaux.length > 0 then
        cs.properties.codesPostaux else []) := by
  unfold buildCommune at h
  cases hg : cs.geometry.coordinates with
  | nil =>
    rw [hg] at h
    injection h with h1
    subst h1
    exact ⟨rfl, rfl, rfl, rfl⟩
  | cons c0 tail =>
    cases tail with
    | nil =>
      rw [hg] at h
      exact Option.noConfusion h
    | cons c1 rest2 =>
      rw [hg] at h
      injection h with h1
      subst h1
      exact ⟨rfl, rfl, rfl, rfl⟩

/-- C5: on a successful build, a non-empty department (resp. region) code is
resolved by a linear scan of the matching table — the field receives the name
of a matching entry, or stays absent ("") when nothing matches — an empty
code leaves the field absent, and in every such case the worker emits the
enriched record, not a Failure. -/
theorem worker_resolves_references (cs : CommuneResponse) (departements : List Departement)
    (regions : List Region) (c : Commune)
    (h : buildCommune cs departements regions = some c) :
    (cs.properties.codeDepartement ≠ "" →
      (∃ d ∈ departements, d.code = cs.properties.codeDepartement ∧ c.departement = d.nom)
      ∨ ((∀ d ∈ departements, d.code ≠ cs.properties.codeDepartement) ∧ c.departement = ""))
    ∧ (cs.properties.codeDepartement = "" → c.departement = "")
    ∧ (cs.properties.codeRegion ≠ "" →
      (∃ r ∈ regions, r.code = cs.properties.codeRegion ∧ c.region = r.nom)
      ∨ ((∀ r ∈ regions, r.code ≠ cs.properties.codeRegion) ∧ c.region = ""))
    ∧ (cs.properties.codeRegion = "" → c.region = "")
    ∧ (∀ code status, status ≠ 404 →
        geoAPIGouvFr code departements regions (.resp status (.decoded cs)) = some (.inr c)) := by
  obtain ⟨hnom, hdep, hreg, hcodes⟩ := buildCommune_fields cs departements regions c h
  refine ⟨?_, ?_, ?_, ?_, ?_⟩
  · intro hne
    rw [hdep, if_pos hne]
    rcases foldl_scan_spec Departement.code Departement.nom
        cs.properties.codeDepartement departements "" with hx | hx
    · left; exact hx
    · right; exact hx
  · intro he
    rw [hdep, if_neg (by simp [he])]
  · intro hne
    rw [hreg, if_pos hne]
    rcases foldl_scan_spec Region.code Region.nom
        cs.properties.codeRegion regions "" with hx | hx
    · left; exact hx
    · right; exact hx
  · intro he
    rw [hreg, if_neg (by simp [he])]
  · intro code status hstatus
    simp only [geoAPIGouvFr]
    rw [if_neg hstatus, h]
    rfl

/-- Witness for C5: csParis against the tables [depParis] and [regIdf]
resolves department_name to "Paris" and region_name to "Ile-de-France". -/
theorem worker_resolves_references_witness :
    buildCommune csParis [depParis] [regIdf] = some parisEnriched
    ∧ ((csParis.properties.codeDepartement ≠ "" →
        (∃ d ∈ [depParis], d.code = csParis.properties.codeDepartement
          ∧ parisEnriched.departement = d.nom)
        ∨ ((∀ d ∈ [depParis], d.code ≠ csParis.properties.codeDepartement)
          ∧ parisEnriched.departement = ""))
      ∧ (csParis.properties.codeDepartement = "" → parisEnriched.departement = "")
      ∧ (csParis.properties.codeRegion ≠ "" →
        (∃ r ∈ [regIdf], r.code = csParis.properties.codeRegion
          ∧ parisEnriched.region = r.nom)
        ∨ ((∀ r ∈ [regIdf], r.code ≠ csParis.properties.codeRegion)
          ∧ parisEnriched.region = ""))
      ∧ (csParis.properties.codeRegion = "" → parisEnriched.region = "")
      ∧ (∀ code status, status ≠ 404 →
          geoAPIGouvFr code [depParis] [regIdf] (.resp status (.decoded csParis))
            = some (.inr parisEnriched))) :=
  ⟨rfl, worker_resolves_references csParis [depParis] [regIdf] parisEnriched rfl⟩

/-- C6, amended: a transport error, a 404 status, a body-read error or a
decode error each make the worker emit exactly one Failure, and the Failure
is the bare identifier in every case — the four cases are indistinguishable
on the error channel, and none retries. -/
theorem worker_failure_modes (code : String) (departements : List Departement)
    (regions : List Region) :
    geoAPIGouvFr code departements regions .netErr = some (.inl code)
    ∧ (∀ body, geoAPIGouvFr code departements regions (.resp 404 body) = some (.inl code))
    ∧ (∀ status, status ≠ 404 →
        geoAPIGouvFr code departements regions (.resp status .readErr) = some (.inl code))
    ∧ (∀ status, status ≠ 404 →
        geoAPIGouvFr code departements regions (.resp status .decodeErr) = some (.inl code)) := by
  refine ⟨rfl, ?_, ?_, ?_⟩
  · intro body
    simp [geoAPIGouvFr]
  · intro status hs
    simp only [geoAPIGouvFr]
    rw [if_neg hs]
  · intro status hs
    simp only [geoAPIGouvFr]
    rw [if_neg hs]

/-- Witness for the amended C6 at identifier 01001 and status 500. -/
theorem worker_failure_modes_witness :
    geoAPIGouvFr "01001" [] [] .netErr = some (.inl "01001")
    ∧ geoAPIGouvFr "01001" [] [] (.resp 404 .readErr) = some (.inl "01001")
    ∧ geoAPIGouvFr "01001" [] [] (.resp 500 .readErr) = some (.inl "01001")
    ∧ geoAPIGouvFr "01001" [] [] (.resp 500 .decodeErr) = some (.inl "01001") :=
  ⟨(worker_failure_modes "01001" [] []).1,
   (worker_failure_modes "01001" [] []).2.1 .readErr,
   (worker_failure_modes "01001" [] []).2.2.1 500 (by decide),
   (worker_failure_modes "01001" [] []).2.2.2 500 (by decide)⟩

/-- C6, claim as stated, refuted: the worker checks only for status 404, so a
non-success status such as 500 with a decodable body yields an enriched
record on the result channel, not a Failure. -/
theorem worker_non404_status_counterexample :
    geoAPIGouvFr "75056" [depParis] [regIdf] (.resp 500 (.decoded csParis))
      = some (.inr parisEnriched) := by
  rfl

/-- C8, claim as stated, refuted: a record built from a response without a
centroid still serializes with a location member — the json tag of Location
has no omitempty (and encoding/json would not honour omitempty on a struct
anyway), so the zero location is written out. -/
theorem location_serialized_without_centroid_counterexample :
    buildCommune csBourg [] [] = some bourg
    ∧ marshalCommune bourg = Json.obj
        [("nom", Json.str "Bourg"),
         ("codesPostaux", Json.arr [Json.str "01400"]),
         ("location", Json.obj [("type", Json.str ""), ("coordinates", Json.null)])] :=
  ⟨rfl, rfl⟩

/-- C8, amended: when the source response carries no centroid, the record's
location is the zero value, and the serialized object still contains a
location member holding that zero value; the location field is therefore not
optional in the output, unlike department_name and region_name. -/
theorem worker_no_centroid_location_still_serialized (cs : CommuneResponse)
    (departements : List Departement) (regions : List Region) (c : Commune)
    (hb : buildCommune cs departements regions = some c)
    (hg : cs.geometry.coordinates = []) :
    c.location = ⟨"", []⟩
    ∧ ("location", Json.obj [("type", Json.str ""), ("coordinates", Json.null)])
        ∈ marshalFields c
    ∧ marshalCommune c = Json.obj (marshalFields c) := by
  have hloc : c.location = ⟨"", []⟩ := by
    unfold buildCommune at hb
    rw [hg] at hb
    injection hb with h1
    rw [← h1]
  refine ⟨hloc, ?_, rfl⟩
  unfold marshalFields
  rw [hloc]
  simp [marshalLocation]

/-- Witness for the amended C8 at the response csBourg. -/
theorem worker_no_centroid_location_still_serialized_witness :
    (buildCommune csBourg [] [] = some bourg ∧ csBourg.geometry.coordinates = [])
    ∧ (bourg.location = ⟨"", []⟩
      ∧ ("location", Json.obj [("type", Json.str ""), ("coordinates", Json.null)])
          ∈ marshalFields bourg
      ∧ marshalCommune bourg = Json.obj (marshalFields bourg)) :=
  ⟨⟨rfl, rfl⟩, worker_no_centroid_location_still_serialized csBourg [] [] bourg rfl rfl⟩

/-- C9: the enrichment step is a pure function of its inputs — two worker
runs over the same identifier, the same reference tables and the same decoded
response produce the same message, and equal enriched records serialize to
byte-identical output. -/
theorem enrichment_deterministic (code1 code2 : String)
    (deps1 deps2 : List Departement) (regs1 regs2 : List Region)
    (r1 r2 : FetchOutcome)
    (hcode : code1 = code2) (hdeps : deps1 = deps2) (hregs : regs1 = regs2) (hr : r1 = r2) :
    geoAPIGouvFr code1 deps1 regs1 r1 = geoAPIGouvFr code2 deps2 regs2 r2
    ∧ ∀ c1 c2 : Commune,
        geoAPIGouvFr code1 deps1 regs1 r1 = some (.inr c1) →
        geoAPIGouvFr code2 deps2 regs2 r2 = some (.inr c2) →
        renderJson (marshalCommune c1) = renderJson (marshalCommune c2) := by
  subst hcode
  subst hdeps
  subst hregs
  subst hr
  refine ⟨rfl, ?_⟩
  intro c1 c2 h1 h2
  rw [h1] at h2
  injection h2 with h3
  injection h3 with h4
  rw [h4]

/-- Witness for C9 at the csParis response. -/
theorem enrichment_deterministic_witness :
    geoAPIGouvFr "75056" [depParis] [regIdf] (.resp 200 (.decoded csParis))
      = geoAPIGouvFr "75056" [depParis] [regIdf] (.resp 200 (.decoded csParis))
    ∧ renderJson (marshalCommune parisEnriched) = renderJson (marshalCommune parisEnriched) :=
  ⟨(enrichment_deterministic "75056" "75056" [depParis] [depParis] [regIdf] [regIdf]
      (.resp 200 (.decoded csParis)) (.resp 200 (.decoded csParis)) rfl rfl rfl rfl).1,
   (enrichment_deterministic "75056" "75056" [depParis] [depParis] [regIdf] [regIdf]
      (.resp 200 (.decoded csParis)) (.resp 200 (.decoded csParis)) rfl rfl rfl rfl).2
      parisEnriched parisEnriched rfl rfl⟩

/-! ### The collector claim -/

/-- readCitiesLoop_characterization: over any well-formed trace, the collector
loop returns (terminates) exactly when every still-open channel gets its
closure event, and on termination the accumulator extends acc with exactly
the communes of the trace, in order, and the log extends logged with exactly
the failure identifiers of the trace, in order. -/
theorem readCitiesLoop_characterization (evs : List CollectorEvent) :
    ∀ (cO eO : Bool) (acc : List Commune) (logged : List String),
      wfTrace cO eO evs = true →
      (((readCitiesLoop cO eO acc logged evs).isSome = true)
        ↔ ((cO = true → CollectorEvent.closeCommunes ∈ evs)
          ∧ (eO = true → CollectorEvent.closeErrors ∈ evs)))
      ∧ (∀ cs es, readCitiesLoop cO eO acc logged evs = some (cs, es) →
          cs = acc ++ communesOf evs ∧ es = logged ++ failuresOf evs) := by
  induction evs with
  | nil =>
    intro cO eO acc logged _hwf
    cases cO <;> cases eO <;>
      simp [readCitiesLoop, communesOf, failuresOf]
  | cons ev rest ih =>
    intro cO eO acc logged hwf
    have hopen : ¬(cO = false ∧ eO = false) := by
      intro hcc
      simp only [wfTrace] at hwf
      rw [if_pos hcc] at hwf
      exact absurd hwf (by simp)
    simp only [wfTrace] at hwf
    rw [if_neg hopen] at hwf
    cases ev with
    | commune c =>
      rw [Bool.and_eq_true] at hwf
      obtain ⟨hcO, hwfr⟩ := hwf
      subst hcO
      have hstep : readCitiesLoop true eO acc logged (CollectorEvent.commune c :: rest)
          = readCitiesLoop true eO (acc ++ [c]) logged rest := by
        rw [readCitiesLoop, if_neg hopen]
        rw [if_pos rfl]
      obtain ⟨ih1, ih2⟩ := ih true eO (acc ++ [c]) logged hwfr
      constructor
      · rw [hstep, ih1]
        simp
      · intro cs es hres
        rw [hstep] at hres
        obtain ⟨h1, h2⟩ := ih2 cs es hres
        constructor
        · rw [h1]; simp [communesOf]
        · rw [h2]; simp [failuresOf]
    | closeCommunes =>
      rw [Bool.and_eq_true] at hwf
      obtain ⟨hcO, hwfr⟩ := hwf
      subst hcO
      have hstep : readCitiesLoop true eO acc logged (CollectorEvent.closeCommunes :: rest)
          = readCitiesLoop false eO acc logged rest := by
        rw [readCitiesLoop, if_neg hopen]
        rw [if_pos rfl]
      obtain ⟨ih1, ih2⟩ := ih false eO acc logged hwfr
      constructor
      · rw [hstep, ih1]
        simp
      · intro cs es hres
        rw [hstep] at hres
        obtain ⟨h1, h2⟩ := ih2 cs es hres
        constructor
        · rw [h1]; simp [communesOf]
        · rw [h2]; simp [failuresOf]
    | failure e =>
      rw [Bool.and_eq_true] at hwf
      obtain ⟨heO, hwfr⟩ := hwf
      subst heO
      have hstep : readCitiesLoop cO true acc logged (CollectorEvent.failure e :: rest)
          = readCitiesLoop cO true acc (logged ++ [e]) rest := by
        rw [readCitiesLoop, if_neg hopen]
        rw [if_pos rfl]
      obtain ⟨ih1, ih2⟩ := ih cO true acc (logged ++ [e]) hwfr
      constructor
      · rw [hstep, ih1]
        simp
      · intro cs es hres
        rw [hstep] at hres
        obtain ⟨h1, h2⟩ := ih2 cs es hres
        constructor
        · rw [h1]; simp [communesOf]
        · rw [h2]; simp [failuresOf]
    | closeErrors =>
      rw [Bool.and_eq_true] at hwf
      obtain ⟨heO, hwfr⟩ := hwf
      subst heO
      have hstep : readCitiesLoop cO true acc logged (CollectorEvent.closeErrors :: rest)
          = readCitiesLoop cO false acc logged rest := by
        rw [readCitiesLoop, if_neg hopen]
        rw [if_pos rfl]
      obtain ⟨ih1, ih2⟩ := ih cO false acc logged hwfr
      constructor
      · rw [hstep, ih1]
        simp
      · intro cs es hres
        rw [hstep] at hres
        obtain ⟨h1, h2⟩ := ih2 cs es hres
        constructor
        · rw [h1]; simp [communesOf]
        · rw [h2]; simp [failuresOf]
    | tick =>
      have hstep : readCitiesLoop cO eO acc logged (CollectorEvent.tick :: rest)
          = readCitiesLoop cO eO acc logged rest := by
        rw [readCitiesLoop, if_neg hopen]
      obtain ⟨ih1, ih2⟩ := ih cO eO acc logged hwf
      constructor
      · rw [hstep, ih1]
        simp
      · intro cs es hres
        rw [hstep] at hres
        obtain ⟨h1, h2⟩ := ih2 cs es hres
        constructor
        · rw [h1]; simp [communesOf]
        · rw [h2]; simp [failuresOf]

/-- C7: starting from both channels open, the collector loop terminates
exactly when the trace closes both channels — in either closing order, with a
closed channel never delivering again — and every commune received before
closure is retained, in arrival order (and every failure is logged, in
order). -/
theorem collector_drains_both_channels (evs : List CollectorEvent)
    (hwf : wfTrace true true evs = true) :
    ((readCitiesLoop true true [] [] evs).isSome = true
      ↔ (CollectorEvent.closeCommunes ∈ evs ∧ CollectorEvent.closeErrors ∈ evs))
    ∧ (∀ cs es, readCitiesLoop true true [] [] evs = some (cs, es) →
        cs = communesOf evs ∧ es = failuresOf evs)
    ∧ (∀ (c : Commune) rest2 acc2 logged2,
        readCitiesLoop false true acc2 logged2 (CollectorEvent.commune c :: rest2) = none)
    ∧ (∀ (e : String) rest2 acc2 logged2,
        readCitiesLoop true false acc2 logged2 (CollectorEvent.failure e :: rest2) = none) := by
  obtain ⟨h1, h2⟩ := readCitiesLoop_characterization evs true true [] [] hwf
  refine ⟨?_, ?_, ?_, ?_⟩
  · rw [h1]
    simp
  · intro cs es hres
    obtain ⟨e1, e2⟩ := h2 cs es hres
    rw [e1, e2]
    simp
  · intro c rest2 acc2 logged2
    rfl
  · intro e rest2 acc2 logged2
    rfl

/-- exTrace is a well-formed collector trace: two communes, one failure, one
tick, with the error channel closing before the commune channel. -/
def exTrace : List CollectorEvent :=
  [.commune bourg, .failure "01002", .tick, .closeErrors, .commune parisEnriched,
   .closeCommunes]

/-- Witness for C7 at the trace exTrace. -/
theorem collector_drains_both_channels_witness :
    wfTrace true true exTrace = true
    ∧ (((readCitiesLoop true true [] [] exTrace).isSome = true
        ↔ (CollectorEvent.closeCommunes ∈ exTrace ∧ CollectorEvent.closeErrors ∈ exTrace))
      ∧ (∀ cs es, readCitiesLoop true true [] [] exTrace = some (cs, es) →
          cs = communesOf exTrace ∧ es = failuresOf exTrace)
      ∧ (∀ (c : Commune) rest2 acc2 logged2,
          readCitiesLoop false true acc2 logged2 (CollectorEvent.commune c :: rest2) = none)
      ∧ (∀ (e : String) rest2 acc2 logged2,
          readCitiesLoop true false acc2 logged2 (CollectorEvent.failure e :: rest2) = none)) :=
  ⟨by decide, collector_drains_both_channels exTrace (by decide)⟩

end CommunesFR

